import Mathlib

/-!
Shallow embedding of the geometry engine, sketch state machine and state
container of the drawing-angular repository
(`src/app/geometry.service.ts`, `src/app/interaction.service.ts`,
`src/app/drawing-state.service.ts`), together with proofs of the
specification's claims about them.

Numbers are modelled as real numbers (the source uses JS doubles).  SVG
path strings built by concatenation in the source are modelled as lists
of path commands, one command per appended string fragment.
-/

set_option autoImplicit false

noncomputable section

namespace Drawing

/-- A 2D point, `{x, y}` in the source. -/
structure Point where
  x : ℝ
  y : ℝ

/-- `Math.hypot(x, y)` of the source. -/
def hypot (x y : ℝ) : ℝ := Real.sqrt (x ^ 2 + y ^ 2)

/-- A shape as held by the state container (`Shape` in
`drawing-state.service.ts`). -/
structure Shape where
  id : String
  vertices : List Point
  cornerRadii : List ℝ
  segmentDepths : List ℝ

/-- One drawing command of the SVG path string built by `generatePathData`:
`M x y`, `L x y`, and `A r r 0 0 sweep x y` fragments. -/
inductive PathCmd where
  | moveTo (p : Point)
  | lineTo (p : Point)
  | arcTo (radius : ℝ) (sweepFlag : ℕ) (p : Point)

/-! ## Corner arc solver (`generatePathData`, lines 16-52) -/

/-- Result of the per-vertex corner computation (the object literal returned
from the `vertices.map` callback in `generatePathData`). -/
structure ArcPt where
  p_arc_start : Point
  p_arc_end : Point
  radius : ℝ

/-- The tangent distance
`dist = Math.min(radius / tanHalfAngle, l_prev / 2, l_next / 2)`
(line 35 of `geometry.service.ts`).  `Math.min(a, b, c)` is modelled as
`min a (min b c)`. -/
def cornerTangentDist (p_prev p_curr p_next : Point) (radius : ℝ) : ℝ :=
  let v_prev : Point := ⟨p_prev.x - p_curr.x, p_prev.y - p_curr.y⟩
  let v_next : Point := ⟨p_next.x - p_curr.x, p_next.y - p_curr.y⟩
  let l_prev := hypot v_prev.x v_prev.y
  let l_next := hypot v_next.x v_next.y
  let angle := Real.arccos ((v_prev.x * v_next.x + v_prev.y * v_next.y) / (l_prev * l_next))
  let tanHalfAngle := Real.tan (angle / 2)
  min (radius / tanHalfAngle) (min (l_prev / 2) (l_next / 2))

/-- The per-vertex corner computation of `generatePathData`
(the `vertices.map` callback, lines 16-52 of `geometry.service.ts`). -/
def cornerArc (p_prev p_curr p_next : Point) (radius : ℝ) : ArcPt :=
  let v_prev : Point := ⟨p_prev.x - p_curr.x, p_prev.y - p_curr.y⟩
  let v_next : Point := ⟨p_next.x - p_curr.x, p_next.y - p_curr.y⟩
  let l_prev := hypot v_prev.x v_prev.y
  let l_next := hypot v_next.x v_next.y
  if l_prev = 0 ∨ l_next = 0 then ⟨p_curr, p_curr, 0⟩
  else
    let angle := Real.arccos ((v_prev.x * v_next.x + v_prev.y * v_next.y) / (l_prev * l_next))
    let tanHalfAngle := Real.tan (angle / 2)
    let dist := cornerTangentDist p_prev p_curr p_next radius
    let actualRadius := dist * tanHalfAngle
    if actualRadius < 0.1 then ⟨p_curr, p_curr, 0⟩
    else
      ⟨⟨p_curr.x + v_prev.x / l_prev * dist, p_curr.y + v_prev.y / l_prev * dist⟩,
       ⟨p_curr.x + v_next.x / l_next * dist, p_curr.y + v_next.y / l_next * dist⟩,
       actualRadius⟩

/-! ## Bulge arc solver (`generatePathData`, lines 62-73) -/

/-- `radius = (depth * depth + (chord / 2) * (chord / 2)) / (2 * depth)`
(line 69 of `geometry.service.ts`); the emitted command carries
`Math.abs` of this value. -/
def bulgeRadius (startP endP : Point) (depth : ℝ) : ℝ :=
  let chord := hypot (endP.x - startP.x) (endP.y - startP.y)
  (depth * depth + chord / 2 * (chord / 2)) / (2 * depth)

/-- `sweepFlag = depth > 0 ? 0 : 1` (line 70 of `geometry.service.ts`). -/
def bulgeSweep (depth : ℝ) : ℕ :=
  if 0 < depth then 0 else 1

/-- The commands emitted for one edge of the boundary (lines 62-73 of
`geometry.service.ts`): a straight `L` for near-zero depth, an `A` when the
chord is positive, and nothing otherwise. -/
def segmentCmds (startP endP : Point) (depth : ℝ) : List PathCmd :=
  if |depth| < 0.1 then [PathCmd.lineTo endP]
  else
    let chord := hypot (endP.x - startP.x) (endP.y - startP.y)
    if 0 < chord then
      [PathCmd.arcTo |bulgeRadius startP endP depth| (bulgeSweep depth) endP]
    else []

/-- Sweep flag of the rounded-corner arc at a vertex (lines 80-84 of
`geometry.service.ts`): sign of the cross product of the two edge vectors. -/
def cornerSweep (p_prev p_curr p_next : Point) : ℕ :=
  let v_prev : Point := ⟨p_prev.x - p_curr.x, p_prev.y - p_curr.y⟩
  let v_next : Point := ⟨p_next.x - p_curr.x, p_next.y - p_curr.y⟩
  let crossProduct := v_prev.x * v_next.y - v_prev.y * v_next.x
  if 0 < crossProduct then 0 else 1

/-- `generatePathData` of `geometry.service.ts` (lines 10-91), with the
path string modelled as the list of appended commands.  `cornerRadii[i] || 0`
and `segmentDepths[j] || 0` are modelled as `getD _ 0`. -/
def generatePathData (shape : Shape) : List PathCmd :=
  if shape.vertices.length < 2 then []
  else
    let n := shape.vertices.length
    let vtx := fun i => shape.vertices.getD i (⟨0, 0⟩ : Point)
    let arcPts := (List.range n).map (fun i =>
      cornerArc (vtx ((i + n - 1) % n)) (vtx i) (vtx ((i + 1) % n))
        (shape.cornerRadii.getD i 0))
    let d0 : ArcPt := ⟨⟨0, 0⟩, ⟨0, 0⟩, 0⟩
    PathCmd.moveTo (arcPts.getD (n - 1) d0).p_arc_end ::
      (List.range n).flatMap (fun i =>
        let prevArc := arcPts.getD ((i + n - 1) % n) d0
        let currentArc := arcPts.getD i d0
        let depth := shape.segmentDepths.getD ((i + n - 1) % n) 0
        segmentCmds prevArc.p_arc_end currentArc.p_arc_start depth ++
          (if 0 < currentArc.radius then
            [PathCmd.arcTo currentArc.radius
              (cornerSweep (vtx ((i + n - 1) % n)) (vtx i) (vtx ((i + 1) % n)))
              currentArc.p_arc_end]
          else []))

/-! ## Orthogonal outliner (`generateOrthogonalPipeVertices`, lines 93-145) -/

/-- The per-index local values of the loop body of
`generateOrthogonalPipeVertices` (lines 102-116 of `geometry.service.ts`):
current point, the two left-normals `n_in`, `n_out` of the normalized
incoming/outgoing directions, and their cross product. -/
structure RailCtx where
  p_curr : Point
  n_in : Point
  n_out : Point
  cross : ℝ

/-- Computes the loop-body locals of `generateOrthogonalPipeVertices` at
index `i`. -/
def railCtx (path : List Point) (i : ℕ) : RailCtx :=
  let p_curr := path.getD i (⟨0, 0⟩ : Point)
  let p_prev := if 0 < i then path.getD (i - 1) (⟨0, 0⟩ : Point) else p_curr
  let p_next := if i < path.length - 1 then path.getD (i + 1) (⟨0, 0⟩ : Point) else p_curr
  let v_in : Point := ⟨p_curr.x - p_prev.x, p_curr.y - p_prev.y⟩
  let l_in := hypot v_in.x v_in.y
  let norm_in : Point := if 0 < l_in then ⟨v_in.x / l_in, v_in.y / l_in⟩ else ⟨0, 0⟩
  let v_out : Point := ⟨p_next.x - p_curr.x, p_next.y - p_curr.y⟩
  let l_out := hypot v_out.x v_out.y
  let norm_out : Point := if 0 < l_out then ⟨v_out.x / l_out, v_out.y / l_out⟩ else ⟨0, 0⟩
  ⟨p_curr, ⟨-norm_in.y, norm_in.x⟩, ⟨-norm_out.y, norm_out.x⟩,
   norm_in.x * norm_out.y - norm_in.y * norm_out.x⟩

/-- The point pushed onto `rightPoints` at loop index `i` of
`generateOrthogonalPipeVertices`.  Every branch of the loop body (start cap,
end cap, straight, turning left, turning right) pushes exactly one point to
each rail, so the loop is modelled as a map over indices; the two turn
branches of the source differ only in push order, which is immaterial
because the pushes go to two separate arrays. -/
def railRight (path : List Point) (halfThick : ℝ) (i : ℕ) : Point :=
  let c := railCtx path i
  if i = 0 then ⟨c.p_curr.x + c.n_out.x * halfThick, c.p_curr.y + c.n_out.y * halfThick⟩
  else if i = path.length - 1 then
    ⟨c.p_curr.x + c.n_in.x * halfThick, c.p_curr.y + c.n_in.y * halfThick⟩
  else if |c.cross| < 0.1 then
    ⟨c.p_curr.x + c.n_in.x * halfThick, c.p_curr.y + c.n_in.y * halfThick⟩
  else if 0 < c.cross then
    ⟨c.p_curr.x + (c.n_in.x + c.n_out.x) * halfThick, c.p_curr.y + (c.n_in.y + c.n_out.y) * halfThick⟩
  else
    ⟨c.p_curr.x + (c.n_in.x + c.n_out.x) * halfThick, c.p_curr.y + (c.n_in.y + c.n_out.y) * halfThick⟩

/-- The point pushed onto `leftPoints` at loop index `i` of
`generateOrthogonalPipeVertices`. -/
def railLeft (path : List Point) (halfThick : ℝ) (i : ℕ) : Point :=
  let c := railCtx path i
  if i = 0 then ⟨c.p_curr.x - c.n_out.x * halfThick, c.p_curr.y - c.n_out.y * halfThick⟩
  else if i = path.length - 1 then
    ⟨c.p_curr.x - c.n_in.x * halfThick, c.p_curr.y - c.n_in.y * halfThick⟩
  else if |c.cross| < 0.1 then
    ⟨c.p_curr.x - c.n_in.x * halfThick, c.p_curr.y - c.n_in.y * halfThick⟩
  else if 0 < c.cross then
    ⟨c.p_curr.x - (c.n_in.x + c.n_out.x) * halfThick, c.p_curr.y - (c.n_in.y + c.n_out.y) * halfThick⟩
  else
    ⟨c.p_curr.x - (c.n_in.x + c.n_out.x) * halfThick, c.p_curr.y - (c.n_in.y + c.n_out.y) * halfThick⟩

/-- `generateOrthogonalPipeVertices` of `geometry.service.ts` (lines 93-145):
`rightPoints.concat(leftPoints.reverse())`, empty for centerlines shorter
than 2 points. -/
def generateOrthogonalPipeVertices (path : List Point) (thickness : ℝ) : List Point :=
  if path.length < 2 then []
  else
    let halfThick := thickness / 2
    let rightPoints := (List.range path.length).map (railRight path halfThick)
    let leftPoints := (List.range path.length).map (railLeft path halfThick)
    rightPoints ++ leftPoints.reverse

/-! ## Pipe sketch session (`interaction.service.ts`, lines 114-252) -/

/-- The `lastDirection` field of `InteractionService`: `'H' | 'V' | 'none'`. -/
inductive Dir where
  | H
  | V
  | none
deriving DecidableEq

/-- The mutable sketch-session fields of `InteractionService`:
`pipeCenterline`, `lastDirection`, and the preview polygon points held by
the `previewPipe` Konva line. -/
structure SessionState where
  centerline : List Point
  lastDirection : Dir
  preview : List Point

/-- Pointer-down over empty canvas (lines 114-127 of
`interaction.service.ts`): centerline starts as `[pos]`, direction
undetermined, preview polygon empty. -/
def startSession (pos : Point) : SessionState :=
  ⟨[pos], Dir.none, []⟩

/-- The axis-lock/turn-detection core of the `mousemove` handler
(lines 168-198 of `interaction.service.ts`), for an already resolved
direction: returns the live endpoint, the turn point pushed onto the
centerline (if any), and the new direction.  The push is guarded by
`turnPoint.x !== anchorPoint.x || turnPoint.y !== anchorPoint.y`. -/
def moveStep (anchor mouse : Point) (dir : Dir) : Point × Option Point × Dir :=
  match dir with
  | Dir.V =>
    if 150 < |mouse.x - anchor.x| then
      let turnPoint : Point := ⟨anchor.x, mouse.y⟩
      (⟨mouse.x, mouse.y⟩,
       if turnPoint.x ≠ anchor.x ∨ turnPoint.y ≠ anchor.y then some turnPoint else Option.none,
       Dir.H)
    else (⟨anchor.x, mouse.y⟩, Option.none, Dir.V)
  | _ =>
    if 150 < |mouse.y - anchor.y| then
      let turnPoint : Point := ⟨mouse.x, anchor.y⟩
      (⟨mouse.x, mouse.y⟩,
       if turnPoint.x ≠ anchor.x ∨ turnPoint.y ≠ anchor.y then some turnPoint else Option.none,
       Dir.V)
    else (⟨mouse.x, anchor.y⟩, Option.none, Dir.H)

/-- Direction resolution at the start of the `mousemove` handler
(lines 163-166 of `interaction.service.ts`): an undetermined direction
becomes `'H'` when `|dx| > |dy|`, else `'V'`. -/
def resolveDir (d : Dir) (dx dy : ℝ) : Dir :=
  if d = Dir.none then (if |dy| < |dx| then Dir.H else Dir.V) else d

/-- The `mousemove` handler while drawing (lines 154-227 of
`interaction.service.ts`): resolves the direction, runs `moveStep`, appends
the turn point (if any), then recomputes the preview polygon, suppressing
it when the live segment is shorter than 5 units.  An empty centerline
(no anchor) leaves the state unchanged, as the handler returns early. -/
def movePipe (s : SessionState) (mouse : Point) : SessionState :=
  match s.centerline.getLast? with
  | Option.none => s
  | some anchor =>
    let dx := mouse.x - anchor.x
    let dy := mouse.y - anchor.y
    let r := moveStep anchor mouse (resolveDir s.lastDirection dx dy)
    let endPoint := r.1
    let newCenterline := s.centerline ++ r.2.1.toList
    let newDir := r.2.2
    let lastPoint := newCenterline.getLast?.getD anchor
    let dist := hypot (endPoint.x - lastPoint.x) (endPoint.y - lastPoint.y)
    if dist < 5 then ⟨newCenterline, newDir, []⟩
    else ⟨newCenterline, newDir,
          generateOrthogonalPipeVertices (newCenterline ++ [endPoint]) 150⟩

/-- Folds a stream of pointer-move positions through the `mousemove`
handler. -/
def runMoves (s : SessionState) (moves : List Point) : SessionState :=
  moves.foldl movePipe s

/-! ## State container (`drawing-state.service.ts`) -/

/-- `DrawingState` of `drawing-state.service.ts`: the shape list and the
selected-shape pointer. -/
structure DrawingState where
  shapes : List Shape
  selectedShapeId : Option String

/-- `shape.id === state.selectedShapeId` of `getSelectedShape`
(lines 139-142 of `drawing-state.service.ts`). -/
def getSelectedShape (st : DrawingState) : Option Shape :=
  st.shapes.find? (fun sh => st.selectedShapeId = some sh.id)

/-- JS array element assignment `a[i] = v` on a copied `number[]`: an
in-range index overwrites, an out-of-range index extends the array to
length `i + 1`.  The holes created by an out-of-range write read back as
`undefined`; every read of these arrays in the source goes through
`x || 0`, so holes are modelled as `0`. -/
def jsSet (l : List ℝ) (i : ℕ) (v : ℝ) : List ℝ :=
  if i < l.length then l.set i v
  else l ++ List.replicate (i - l.length) 0 ++ [v]

/-- JS array element assignment on a copied point array; holes (never read
by the claims considered here) are modelled as the origin. -/
def jsSetPt (l : List Point) (i : ℕ) (v : Point) : List Point :=
  if i < l.length then l.set i v
  else l ++ List.replicate (i - l.length) (⟨0, 0⟩ : Point) ++ [v]

/-- Replaces the selected shape by `f sel` in the shape list, the
`state.shapes.map(shape => shape.id === selectedShape.id ? ... : shape)`
pattern shared by the mutating operations of `DrawingStateService`. -/
def mapSelected (st : DrawingState) (sel : Shape) (f : Shape → Shape) : List Shape :=
  st.shapes.map (fun sh => if sh.id = sel.id then f sh else sh)

/-- `selectShape` (lines 144-146). -/
def selectShape (st : DrawingState) (shapeId : Option String) : DrawingState :=
  { st with selectedShapeId := shapeId }

/-- `updateVertexPosition` (lines 148-162). -/
def updateVertexPosition (st : DrawingState) (index : ℕ) (position : Point) : DrawingState :=
  match getSelectedShape st with
  | Option.none => st
  | some sel =>
    let newShapes := mapSelected st sel
      (fun sh => { sh with vertices := jsSetPt sel.vertices index position })
    { st with shapes := newShapes }

/-- `setCornerRadius` (lines 164-178). -/
def setCornerRadius (st : DrawingState) (index : ℕ) (radius : ℝ) : DrawingState :=
  match getSelectedShape st with
  | Option.none => st
  | some sel =>
    let newShapes := mapSelected st sel
      (fun sh => { sh with cornerRadii := jsSet sel.cornerRadii index radius })
    { st with shapes := newShapes }

/-- `setSegmentDepth` (lines 180-194). -/
def setSegmentDepth (st : DrawingState) (index : ℕ) (depth : ℝ) : DrawingState :=
  match getSelectedShape st with
  | Option.none => st
  | some sel =>
    let newShapes := mapSelected st sel
      (fun sh => { sh with segmentDepths := jsSet sel.segmentDepths index depth })
    { st with shapes := newShapes }

/-- `moveSegment` (lines 196-216).  The source reads
`newVertices[p1_index]` and, after overwriting it, `newVertices[p2_index]`;
an out-of-range `index` would fault on reading `undefined.x` before any
state change, so that case is modelled as leaving the state unchanged. -/
def moveSegment (st : DrawingState) (index : ℕ) (dx dy : ℝ) : DrawingState :=
  match getSelectedShape st with
  | Option.none => st
  | some sel =>
    let n := sel.vertices.length
    if index < n then
      let p2_index := (index + 1) % n
      let v1 := sel.vertices.getD index (⟨0, 0⟩ : Point)
      let verts1 := sel.vertices.set index ⟨v1.x + dx, v1.y + dy⟩
      let v2 := verts1.getD p2_index (⟨0, 0⟩ : Point)
      let verts2 := verts1.set p2_index ⟨v2.x + dx, v2.y + dy⟩
      { st with shapes := mapSelected st sel (fun sh => { sh with vertices := verts2 }) }
    else st

/-- `Math.min(...list)` over a nonempty list of reals (for the empty list
the source would yield `Infinity`, which has no counterpart in `ℝ`; the
value is irrelevant to the claims below, which only concern lengths). -/
def listMin (l : List ℝ) : ℝ :=
  match l with
  | [] => 0
  | x :: xs => xs.foldl min x

/-- `scaleAll` (lines 218-245). -/
def scaleAll (st : DrawingState) (scaleRatio : ℝ) (isHorizontal : Bool)
    (allPoints : List Point) : DrawingState :=
  match getSelectedShape st with
  | Option.none => st
  | some sel =>
    let newVertices :=
      if isHorizontal then
        let minX := listMin (allPoints.map Point.x)
        sel.vertices.map (fun v => { v with x := minX + (v.x - minX) * scaleRatio })
      else
        let minY := listMin (allPoints.map Point.y)
        sel.vertices.map (fun v => { v with y := minY + (v.y - minY) * scaleRatio })
    { st with shapes := mapSelected st sel (fun sh => { sh with vertices := newVertices }) }

/-- `addNewShape` (lines 247-261).  `generateId()` draws on `Date.now` and
`Math.random`; the fresh id is therefore a parameter here. -/
def addNewShape (st : DrawingState) (newId : String) (vertices : List Point) : DrawingState :=
  let newShape : Shape :=
    { id := newId
      vertices := vertices
      cornerRadii := List.replicate vertices.length 0
      segmentDepths := List.replicate vertices.length 0 }
  { shapes := st.shapes ++ [newShape], selectedShapeId := some newId }

/-- `deleteShape` (lines 263-271). -/
def deleteShape (st : DrawingState) (shapeId : String) : DrawingState :=
  { shapes := st.shapes.filter (fun sh => sh.id ≠ shapeId)
    selectedShapeId := if st.selectedShapeId = some shapeId then Option.none else st.selectedShapeId }

/-- `moveShape` (lines 273-288). -/
def moveShape (st : DrawingState) (shapeId : String) (dx dy : ℝ) : DrawingState :=
  { st with shapes := st.shapes.map (fun sh =>
      if sh.id = shapeId then
        { sh with vertices := sh.vertices.map (fun v => ⟨v.x + dx, v.y + dy⟩) }
      else sh) }

/-- The `mouseup` handler while drawing (lines 239-252 of
`interaction.service.ts`): the final vertices are read back from the stored
preview polygon (the flat coordinate array round-trips to the same point
list), and a new shape is created via `setNewShape` (an alias of
`addNewShape`) only when there are more than 3 of them. -/
def mouseUp (s : SessionState) (st : DrawingState) (newId : String) : DrawingState :=
  if 3 < s.preview.length then addNewShape st newId s.preview else st

/-- The balanced-lengths property of a single shape:
`cornerRadii.length == segmentDepths.length == vertices.length`. -/
def ShapeInv (sh : Shape) : Prop :=
  sh.cornerRadii.length = sh.vertices.length ∧
  sh.segmentDepths.length = sh.vertices.length

/-- The length invariant of the data model: every shape of the state has
balanced array lengths. -/
def Inv (st : DrawingState) : Prop :=
  ∀ sh ∈ st.shapes, ShapeInv sh

/-! ## Helper lemmas -/

theorem Point.ext_iff2 {a b : Point} : a = b ↔ a.x = b.x ∧ a.y = b.y := by
  constructor
  · intro h; simp [h]
  · rintro ⟨h1, h2⟩; cases a; cases b; simp_all

theorem hypot_nonneg (x y : ℝ) : 0 ≤ hypot x y := Real.sqrt_nonneg _

/-- Evaluation helper: `hypot x y = c` whenever `x^2 + y^2 = c^2` with `0 ≤ c`. -/
theorem hypot_eq {x y c : ℝ} (hc : 0 ≤ c) (h : x ^ 2 + y ^ 2 = c ^ 2) :
    hypot x y = c := by
  rw [hypot, h, Real.sqrt_sq hc]

theorem hypot_zero : hypot 0 0 = 0 := by
  simpa using hypot_eq le_rfl (by norm_num)

/-! ## Claim C1: corner rounding never exceeds half an edge -/

/-- C1: for a vertex whose adjacent edges both have non-zero length and
whose requested radius is positive, the tangent distance
`dist = Math.min(radius / tanHalfAngle, l_prev / 2, l_next / 2)` used by
corner rounding is at most half of either adjacent edge length. -/
theorem corner_dist_le_half_edges (p_prev p_curr p_next : Point) (radius : ℝ)
    (hprev : hypot (p_prev.x - p_curr.x) (p_prev.y - p_curr.y) ≠ 0)
    (hnext : hypot (p_next.x - p_curr.x) (p_next.y - p_curr.y) ≠ 0)
    (hr : 0 < radius) :
    cornerTangentDist p_prev p_curr p_next radius ≤
      min (hypot (p_prev.x - p_curr.x) (p_prev.y - p_curr.y) / 2)
          (hypot (p_next.x - p_curr.x) (p_next.y - p_curr.y) / 2) := by
  simp only [cornerTangentDist]
  exact min_le_right _ _

/-- Witness for C1 at the concrete vertex `(0,0)` with neighbours `(1,0)`
and `(0,1)` and radius `1`. -/
theorem corner_dist_le_half_edges_witness :
    hypot ((1:ℝ) - 0) ((0:ℝ) - 0) ≠ 0 ∧ (0:ℝ) < 1 ∧
    cornerTangentDist ⟨1, 0⟩ ⟨0, 0⟩ ⟨0, 1⟩ 1 ≤
      min (hypot ((1:ℝ) - 0) ((0:ℝ) - 0) / 2) (hypot ((0:ℝ) - 0) ((1:ℝ) - 0) / 2) := by
  have e1 : hypot ((1:ℝ) - 0) ((0:ℝ) - 0) = 1 := hypot_eq (by norm_num) (by norm_num)
  have e2 : hypot ((0:ℝ) - 0) ((1:ℝ) - 0) = 1 := hypot_eq (by norm_num) (by norm_num)
  have h1 : hypot ((1:ℝ) - 0) ((0:ℝ) - 0) ≠ 0 := by rw [e1]; norm_num
  have h2 : hypot ((0:ℝ) - 0) ((1:ℝ) - 0) ≠ 0 := by rw [e2]; norm_num
  exact ⟨h1, by norm_num,
    corner_dist_le_half_edges ⟨1, 0⟩ ⟨0, 0⟩ ⟨0, 1⟩ 1 h1 h2 (by norm_num)⟩

/-! ## Claim C6: bulge sign symmetry -/

/-- C6: for chord endpoints with positive chord length and a depth of
magnitude at least `0.1`, the edge emits an arc command whose radius is
`|bulgeRadius|` and whose sweep flag is `bulgeSweep depth`; negating the
depth leaves the emitted radius unchanged and flips the sweep flag. -/
theorem bulge_sign_symmetry (startP endP : Point) (d : ℝ)
    (hchord : 0 < hypot (endP.x - startP.x) (endP.y - startP.y))
    (hd : 0.1 ≤ |d|) :
    segmentCmds startP endP d =
      [PathCmd.arcTo |bulgeRadius startP endP d| (bulgeSweep d) endP] ∧
    |bulgeRadius startP endP d| = |bulgeRadius startP endP (-d)| ∧
    bulgeSweep d ≠ bulgeSweep (-d) := by
  have hd01 : ¬ |d| < 0.1 := not_lt.mpr hd
  have hdne : d ≠ 0 := by
    intro h
    rw [h, abs_zero] at hd
    norm_num at hd
  refine ⟨?_, ?_, ?_⟩
  · simp only [segmentCmds]
    rw [if_neg hd01, if_pos hchord]
  · simp only [bulgeRadius]
    rw [abs_div, abs_div]
    have hnum : -d * -d + hypot (endP.x - startP.x) (endP.y - startP.y) / 2 *
        (hypot (endP.x - startP.x) (endP.y - startP.y) / 2) =
        d * d + hypot (endP.x - startP.x) (endP.y - startP.y) / 2 *
        (hypot (endP.x - startP.x) (endP.y - startP.y) / 2) := by ring
    rw [hnum]
    have hden : |2 * -d| = |2 * d| := by rw [abs_mul, abs_mul, abs_neg]
    rw [hden]
  · rcases hdne.lt_or_lt with hneg | hpos
    · simp only [bulgeSweep]
      rw [if_neg (not_lt.mpr hneg.le), if_pos (by linarith : 0 < -d)]
      norm_num
    · simp only [bulgeSweep]
      rw [if_pos hpos, if_neg (by linarith : ¬ 0 < -d)]
      norm_num

/-- Witness for C6 at chord `(0,0)`-`(3,0)` with depth `1`. -/
theorem bulge_sign_symmetry_witness :
    0 < hypot ((⟨3, 0⟩ : Point).x - (⟨0, 0⟩ : Point).x) ((⟨3, 0⟩ : Point).y - (⟨0, 0⟩ : Point).y) ∧
    (0.1:ℝ) ≤ |(1:ℝ)| ∧
    (|bulgeRadius ⟨0, 0⟩ ⟨3, 0⟩ 1| = |bulgeRadius ⟨0, 0⟩ ⟨3, 0⟩ (-1)| ∧
     bulgeSweep 1 ≠ bulgeSweep (-1)) := by
  have e : hypot ((3:ℝ) - 0) ((0:ℝ) - 0) = 3 := hypot_eq (by norm_num) (by norm_num)
  have hchord : 0 < hypot ((⟨3, 0⟩ : Point).x - (⟨0, 0⟩ : Point).x)
      ((⟨3, 0⟩ : Point).y - (⟨0, 0⟩ : Point).y) := by
    show 0 < hypot ((3:ℝ) - 0) ((0:ℝ) - 0)
    rw [e]; norm_num
  have hd : (0.1:ℝ) ≤ |(1:ℝ)| := by rw [abs_one]; norm_num
  exact ⟨hchord, hd, (bulge_sign_symmetry ⟨0, 0⟩ ⟨3, 0⟩ 1 hchord hd).2⟩

/-! ## Claim C5: zero chord with large bulge -/

/-- C5 counterexample: at chord endpoints `(0,0)`-`(0,0)` (chord length 0)
with depth `5` (magnitude at least `0.1`), the path builder emits no
command at all for the edge — not the straight-line command to the edge's
endpoint that the claim asserts. -/
theorem zero_chord_cex :
    (0.1:ℝ) ≤ |(5:ℝ)| ∧
    hypot ((⟨0, 0⟩ : Point).x - (⟨0, 0⟩ : Point).x) ((⟨0, 0⟩ : Point).y - (⟨0, 0⟩ : Point).y) = 0 ∧
    segmentCmds ⟨0, 0⟩ ⟨0, 0⟩ 5 ≠ [PathCmd.lineTo ⟨0, 0⟩] ∧
    segmentCmds ⟨0, 0⟩ ⟨0, 0⟩ 5 = [] := by
  have h5 : |(5:ℝ)| = 5 := abs_of_pos (by norm_num)
  have e : hypot ((0:ℝ) - 0) ((0:ℝ) - 0) = 0 := hypot_eq le_rfl (by norm_num)
  have hempty : segmentCmds (⟨0, 0⟩ : Point) ⟨0, 0⟩ 5 = [] := by
    simp only [segmentCmds]
    rw [if_neg (by rw [h5]; norm_num), if_neg (by rw [e]; norm_num)]
  refine ⟨by rw [h5]; norm_num, e, ?_, hempty⟩
  rw [hempty]
  simp

/-- C5 amended: for an edge with depth magnitude at least `0.1` but zero
chord length, the path builder emits no command for that edge (the pen is
already at the edge's endpoint, so the rendered geometry is the same as a
zero-length straight line). -/
theorem zero_chord_skips_edge (startP endP : Point) (d : ℝ)
    (hd : 0.1 ≤ |d|)
    (hchord : hypot (endP.x - startP.x) (endP.y - startP.y) = 0) :
    segmentCmds startP endP d = [] := by
  simp only [segmentCmds]
  rw [if_neg (not_lt.mpr hd), if_neg (by rw [hchord]; norm_num)]

/-- Witness for the amended C5 at endpoints `(2,1)`-`(2,1)` and depth `-3`. -/
theorem zero_chord_skips_edge_witness :
    (0.1:ℝ) ≤ |(-3:ℝ)| ∧
    hypot ((⟨2, 1⟩ : Point).x - (⟨2, 1⟩ : Point).x) ((⟨2, 1⟩ : Point).y - (⟨2, 1⟩ : Point).y) = 0 ∧
    segmentCmds ⟨2, 1⟩ ⟨2, 1⟩ (-3) = [] := by
  have hd : (0.1:ℝ) ≤ |(-3:ℝ)| := by rw [abs_neg, abs_of_pos (by norm_num)]; norm_num
  have e : hypot ((⟨2, 1⟩ : Point).x - (⟨2, 1⟩ : Point).x)
      ((⟨2, 1⟩ : Point).y - (⟨2, 1⟩ : Point).y) = 0 := by
    show hypot ((2:ℝ) - 2) ((1:ℝ) - 1) = 0
    exact hypot_eq le_rfl (by norm_num)
  exact ⟨hd, e, zero_chord_skips_edge ⟨2, 1⟩ ⟨2, 1⟩ (-3) hd e⟩

/-! ## Claim C4: right-turn miter join -/

/-- Loop locals at the interior vertex of the right-turning centerline
`(0,0) → (100,0) → (100,-100)`. -/
theorem railCtx_rightTurn_eval :
    railCtx [⟨0, 0⟩, ⟨100, 0⟩, ⟨100, -100⟩] 1 =
      ⟨⟨100, 0⟩, ⟨0, 1⟩, ⟨1, 0⟩, -1⟩ := by
  have hin : hypot (100:ℝ) 0 = 100 := hypot_eq (by norm_num) (by norm_num)
  have hout : hypot (0:ℝ) (-100) = 100 := hypot_eq (by norm_num) (by norm_num)
  simp only [railCtx]
  norm_num [hin, hout]

/-- C4 counterexample: at the interior vertex of the right-turning
centerline `(0,0) → (100,0) → (100,-100)` (cross = -1, so a right turn of
magnitude at least 0.1), with half-thickness 75 the left rail point the
code produces is `(25,-75)` — the negated summed-normal offset — and not
the positive summed-normal miter `p + h·(n_in + n_out)` that the claim
assigns to the left rail. -/
theorem right_turn_mirror_cex :
    (railCtx [⟨0, 0⟩, ⟨100, 0⟩, ⟨100, -100⟩] 1).cross = -1 ∧
    (0.1:ℝ) ≤ |(railCtx [⟨0, 0⟩, ⟨100, 0⟩, ⟨100, -100⟩] 1).cross| ∧
    railLeft [⟨0, 0⟩, ⟨100, 0⟩, ⟨100, -100⟩] 75 1 = ⟨25, -75⟩ ∧
    ((⟨25, -75⟩ : Point) ≠
      ⟨(railCtx [⟨0, 0⟩, ⟨100, 0⟩, ⟨100, -100⟩] 1).p_curr.x +
         ((railCtx [⟨0, 0⟩, ⟨100, 0⟩, ⟨100, -100⟩] 1).n_in.x +
          (railCtx [⟨0, 0⟩, ⟨100, 0⟩, ⟨100, -100⟩] 1).n_out.x) * 75,
       (railCtx [⟨0, 0⟩, ⟨100, 0⟩, ⟨100, -100⟩] 1).p_curr.y +
         ((railCtx [⟨0, 0⟩, ⟨100, 0⟩, ⟨100, -100⟩] 1).n_in.y +
          (railCtx [⟨0, 0⟩, ⟨100, 0⟩, ⟨100, -100⟩] 1).n_out.y) * 75⟩) := by
  have hctx := railCtx_rightTurn_eval
  refine ⟨by rw [hctx], by rw [hctx]; norm_num [abs_of_nonneg], ?_, ?_⟩
  · simp only [railLeft, hctx]
    norm_num
  · rw [hctx]
    simp only [Point.ext_iff2]
    norm_num

/-- C4 amended: at an interior vertex turning right
(`cross < 0`, `|cross| ≥ 0.1`) the code behaves exactly as at a left turn:
the right rail point is offset by `+h·(n_in + n_out)` and the left rail
point by the negated vector (the two turn branches of the source differ
only in the order of array pushes, not in the points produced). -/
theorem right_turn_same_as_left (path : List Point) (halfThick : ℝ) (i : ℕ)
    (hi0 : i ≠ 0) (hilast : i ≠ path.length - 1)
    (hcross : (railCtx path i).cross < 0)
    (hmag : 0.1 ≤ |(railCtx path i).cross|) :
    railRight path halfThick i =
      ⟨(railCtx path i).p_curr.x +
         ((railCtx path i).n_in.x + (railCtx path i).n_out.x) * halfThick,
       (railCtx path i).p_curr.y +
         ((railCtx path i).n_in.y + (railCtx path i).n_out.y) * halfThick⟩ ∧
    railLeft path halfThick i =
      ⟨(railCtx path i).p_curr.x -
         ((railCtx path i).n_in.x + (railCtx path i).n_out.x) * halfThick,
       (railCtx path i).p_curr.y -
         ((railCtx path i).n_in.y + (railCtx path i).n_out.y) * halfThick⟩ := by
  constructor
  · simp only [railRight]
    rw [if_neg hi0, if_neg hilast, if_neg (not_lt.mpr hmag), if_neg (not_lt.mpr hcross.le)]
  · simp only [railLeft]
    rw [if_neg hi0, if_neg hilast, if_neg (not_lt.mpr hmag), if_neg (not_lt.mpr hcross.le)]

/-- Witness for the amended C4 on the right-turning centerline
`(0,0) → (50,0) → (50,-50)` with half-thickness 10. -/
theorem right_turn_same_as_left_witness :
    (1:ℕ) ≠ 0 ∧ (1:ℕ) ≠ ([(⟨0, 0⟩ : Point), ⟨50, 0⟩, ⟨50, -50⟩] : List Point).length - 1 ∧
    (railCtx [⟨0, 0⟩, ⟨50, 0⟩, ⟨50, -50⟩] 1).cross < 0 ∧
    (0.1:ℝ) ≤ |(railCtx [⟨0, 0⟩, ⟨50, 0⟩, ⟨50, -50⟩] 1).cross| ∧
    railRight [⟨0, 0⟩, ⟨50, 0⟩, ⟨50, -50⟩] 10 1 =
      ⟨(railCtx [⟨0, 0⟩, ⟨50, 0⟩, ⟨50, -50⟩] 1).p_curr.x +
         ((railCtx [⟨0, 0⟩, ⟨50, 0⟩, ⟨50, -50⟩] 1).n_in.x +
          (railCtx [⟨0, 0⟩, ⟨50, 0⟩, ⟨50, -50⟩] 1).n_out.x) * 10,
       (railCtx [⟨0, 0⟩, ⟨50, 0⟩, ⟨50, -50⟩] 1).p_curr.y +
         ((railCtx [⟨0, 0⟩, ⟨50, 0⟩, ⟨50, -50⟩] 1).n_in.y +
          (railCtx [⟨0, 0⟩, ⟨50, 0⟩, ⟨50, -50⟩] 1).n_out.y) * 10⟩ := by
  have hin : hypot (50:ℝ) 0 = 50 := hypot_eq (by norm_num) (by norm_num)
  have hout : hypot (0:ℝ) (-50) = 50 := hypot_eq (by norm_num) (by norm_num)
  have hctx : railCtx [⟨0, 0⟩, ⟨50, 0⟩, ⟨50, -50⟩] 1 =
      ⟨⟨50, 0⟩, ⟨0, 1⟩, ⟨1, 0⟩, -1⟩ := by
    simp only [railCtx]
    norm_num [hin, hout]
  have hcross : (railCtx [⟨0, 0⟩, ⟨50, 0⟩, ⟨50, -50⟩] 1).cross < 0 := by
    rw [hctx]; norm_num
  have hmag : (0.1:ℝ) ≤ |(railCtx [⟨0, 0⟩, ⟨50, 0⟩, ⟨50, -50⟩] 1).cross| := by
    rw [hctx]; norm_num [abs_of_nonneg]
  refine ⟨by norm_num, by simp, hcross, hmag, ?_⟩
  exact (right_turn_same_as_left [⟨0, 0⟩, ⟨50, 0⟩, ⟨50, -50⟩] 10 1
    (by norm_num) (by simp) hcross hmag).1

/-! ## Claim C8: outline point count and arrangement -/

/-- C8: for a centerline of length at least 2 and positive thickness, the
outline is exactly the N right-rail points in centerline order followed by
the N left-rail points reversed — `2·N` points in total; a centerline
shorter than 2 points yields the empty list. -/
theorem outline_count (path : List Point) (thickness : ℝ) (hth : 0 < thickness) :
    (2 ≤ path.length →
      generateOrthogonalPipeVertices path thickness =
        (List.range path.length).map (railRight path (thickness / 2)) ++
          ((List.range path.length).map (railLeft path (thickness / 2))).reverse ∧
      (generateOrthogonalPipeVertices path thickness).length = 2 * path.length) ∧
    (path.length < 2 → generateOrthogonalPipeVertices path thickness = []) := by
  constructor
  · intro h
    have hn : ¬ path.length < 2 := not_lt.mpr h
    have heq : generateOrthogonalPipeVertices path thickness =
        (List.range path.length).map (railRight path (thickness / 2)) ++
          ((List.range path.length).map (railLeft path (thickness / 2))).reverse := by
      simp only [generateOrthogonalPipeVertices]
      rw [if_neg hn]
    refine ⟨heq, ?_⟩
    rw [heq]
    simp only [List.length_append, List.length_reverse, List.length_map, List.length_range]
    ring
  · intro h
    simp only [generateOrthogonalPipeVertices]
    rw [if_pos h]

/-- Witness for C8 on the straight 2-point centerline `(0,0) → (100,0)`
with thickness 150, and on the 1-point centerline `[(0,0)]`. -/
theorem outline_count_witness :
    (0:ℝ) < 150 ∧ 2 ≤ ([(⟨0, 0⟩ : Point), ⟨100, 0⟩] : List Point).length ∧
    (generateOrthogonalPipeVertices [⟨0, 0⟩, ⟨100, 0⟩] 150).length = 4 ∧
    generateOrthogonalPipeVertices [(⟨0, 0⟩ : Point)] 150 = [] := by
  have hth : (0:ℝ) < 150 := by norm_num
  have h2 : 2 ≤ ([(⟨0, 0⟩ : Point), ⟨100, 0⟩] : List Point).length := by simp
  have h1 : ([(⟨0, 0⟩ : Point)] : List Point).length < 2 := by simp
  exact ⟨hth, h2, ((outline_count [⟨0, 0⟩, ⟨100, 0⟩] 150 hth).1 h2).2,
    (outline_count [⟨0, 0⟩] 150 hth).2 h1⟩

/-! ## Session state machine helpers -/

theorem movePipe_eval (s : SessionState) (anchor mouse : Point)
    (ha : s.centerline.getLast? = some anchor) :
    movePipe s mouse =
      (let r := moveStep anchor mouse
        (resolveDir s.lastDirection (mouse.x - anchor.x) (mouse.y - anchor.y))
       let newCenterline := s.centerline ++ r.2.1.toList
       let lastPoint := newCenterline.getLast?.getD anchor
       if hypot (r.1.x - lastPoint.x) (r.1.y - lastPoint.y) < 5 then
         (⟨newCenterline, r.2.2, []⟩ : SessionState)
       else ⟨newCenterline, r.2.2,
             generateOrthogonalPipeVertices (newCenterline ++ [r.1]) 150⟩) := by
  simp only [movePipe, ha]

theorem movePipe_centerline (s : SessionState) (anchor mouse : Point)
    (ha : s.centerline.getLast? = some anchor) :
    (movePipe s mouse).centerline =
      s.centerline ++ ((moveStep anchor mouse
        (resolveDir s.lastDirection (mouse.x - anchor.x) (mouse.y - anchor.y))).2.1).toList := by
  rw [movePipe_eval s anchor mouse ha]
  dsimp only
  split <;> rfl

theorem movePipe_lastDirection (s : SessionState) (anchor mouse : Point)
    (ha : s.centerline.getLast? = some anchor) :
    (movePipe s mouse).lastDirection =
      (moveStep anchor mouse
        (resolveDir s.lastDirection (mouse.x - anchor.x) (mouse.y - anchor.y))).2.2 := by
  rw [movePipe_eval s anchor mouse ha]
  dsimp only
  split <;> rfl

theorem resolveDir_V (dx dy : ℝ) : resolveDir Dir.V dx dy = Dir.V := by
  simp [resolveDir]

theorem resolveDir_H (dx dy : ℝ) : resolveDir Dir.H dx dy = Dir.H := by
  simp [resolveDir]

theorem resolveDir_undetermined (dx dy : ℝ) :
    resolveDir Dir.none dx dy = if |dy| < |dx| then Dir.H else Dir.V := by
  simp [resolveDir]

/-! ## Claim C3: turn registration -/

/-- C3 amended: on a pointer move with a locked axis whose perpendicular
displacement from the anchor exceeds the 150-unit turn threshold, the
locked axis flips and the constrained turn point is appended to the
centerline — but only when it differs from the anchor (the current last
centerline vertex); when it coincides with the anchor (perpendicular
threshold crossed with zero parallel displacement) nothing is appended and
only the axis flips.  When it is appended, it becomes the last centerline
vertex, i.e. the anchor of the next move.  If the perpendicular
displacement does not exceed 150, no vertex is appended and the axis is
unchanged. -/
theorem turn_registration (s : SessionState) (mouse anchor : Point)
    (ha : s.centerline.getLast? = some anchor) :
    (s.lastDirection = Dir.V →
      (150 < |mouse.x - anchor.x| →
        (movePipe s mouse).lastDirection = Dir.H ∧
        (movePipe s mouse).centerline =
          (if mouse.y ≠ anchor.y then s.centerline ++ [⟨anchor.x, mouse.y⟩]
           else s.centerline) ∧
        (mouse.y ≠ anchor.y →
          (movePipe s mouse).centerline.getLast? = some ⟨anchor.x, mouse.y⟩)) ∧
      (¬ 150 < |mouse.x - anchor.x| →
        (movePipe s mouse).lastDirection = Dir.V ∧
        (movePipe s mouse).centerline = s.centerline)) ∧
    (s.lastDirection = Dir.H →
      (150 < |mouse.y - anchor.y| →
        (movePipe s mouse).lastDirection = Dir.V ∧
        (movePipe s mouse).centerline =
          (if mouse.x ≠ anchor.x then s.centerline ++ [⟨mouse.x, anchor.y⟩]
           else s.centerline) ∧
        (mouse.x ≠ anchor.x →
          (movePipe s mouse).centerline.getLast? = some ⟨mouse.x, anchor.y⟩)) ∧
      (¬ 150 < |mouse.y - anchor.y| →
        (movePipe s mouse).lastDirection = Dir.H ∧
        (movePipe s mouse).centerline = s.centerline)) := by
  rw [movePipe_centerline s anchor mouse ha, movePipe_lastDirection s anchor mouse ha]
  constructor
  · intro hdir
    rw [hdir, resolveDir_V]
    constructor
    · intro h150
      simp only [moveStep]
      rw [if_pos h150]
      by_cases hy : mouse.y = anchor.y
      · rw [if_neg (by simp [hy])]
        refine ⟨rfl, ?_, ?_⟩
        · rw [if_neg (by simp [hy])]
          simp
        · intro h; exact absurd hy h
      · rw [if_pos (by simp [hy])]
        refine ⟨rfl, ?_, ?_⟩
        · rw [if_pos hy]
          simp
        · intro _
          simp [List.getLast?_concat]
    · intro h150
      simp only [moveStep]
      rw [if_neg h150]
      exact ⟨rfl, by simp⟩
  · intro hdir
    rw [hdir, resolveDir_H]
    constructor
    · intro h150
      simp only [moveStep]
      rw [if_pos h150]
      by_cases hx : mouse.x = anchor.x
      · rw [if_neg (by simp [hx])]
        refine ⟨rfl, ?_, ?_⟩
        · rw [if_neg (by simp [hx])]
          simp
        · intro h; exact absurd hx h
      · rw [if_pos (by simp [hx])]
        refine ⟨rfl, ?_, ?_⟩
        · rw [if_pos hx]
          simp
        · intro _
          simp [List.getLast?_concat]
    · intro h150
      simp only [moveStep]
      rw [if_neg h150]
      exact ⟨rfl, by simp⟩

/-- C3 counterexample: locked Vertical at anchor `(0,0)`, a move to
`(200,0)` has perpendicular displacement `200 > 150`, yet no vertex is
appended — the centerline stays `[(0,0)]` because the constrained turn
point `(0,0)` coincides with the anchor — while the locked axis still
flips to Horizontal.  The claim instead asserts the constrained point is
appended as a committed vertex on every threshold crossing. -/
theorem turn_registration_cex :
    (150:ℝ) < |(⟨200, 0⟩ : Point).x - (⟨0, 0⟩ : Point).x| ∧
    (movePipe ⟨[⟨0, 0⟩], Dir.V, []⟩ ⟨200, 0⟩).lastDirection = Dir.H ∧
    (movePipe ⟨[⟨0, 0⟩], Dir.V, []⟩ ⟨200, 0⟩).centerline = [⟨0, 0⟩] := by
  have ha : ([(⟨0, 0⟩ : Point)] : List Point).getLast? = some ⟨0, 0⟩ := by simp
  have h150 : (150:ℝ) < |(⟨200, 0⟩ : Point).x - (⟨0, 0⟩ : Point).x| := by
    show (150:ℝ) < |(200:ℝ) - 0|
    rw [sub_zero, abs_of_pos (by norm_num : (0:ℝ) < 200)]
    norm_num
  have hms : moveStep ⟨0, 0⟩ ⟨200, 0⟩ Dir.V =
      ((⟨200, 0⟩ : Point), Option.none, Dir.H) := by
    simp only [moveStep]
    rw [if_pos h150, if_neg (by norm_num)]
  refine ⟨h150, ?_, ?_⟩
  · rw [movePipe_lastDirection ⟨[⟨0, 0⟩], Dir.V, []⟩ ⟨0, 0⟩ ⟨200, 0⟩ ha]
    show (moveStep ⟨0, 0⟩ ⟨200, 0⟩ (resolveDir Dir.V _ _)).2.2 = Dir.H
    rw [resolveDir_V, hms]
  · rw [movePipe_centerline ⟨[⟨0, 0⟩], Dir.V, []⟩ ⟨0, 0⟩ ⟨200, 0⟩ ha]
    show [(⟨0, 0⟩ : Point)] ++
      ((moveStep ⟨0, 0⟩ ⟨200, 0⟩ (resolveDir Dir.V _ _)).2.1).toList = [⟨0, 0⟩]
    rw [resolveDir_V, hms]
    simp

/-- Witness for the amended C3: locked Vertical at anchor `(0,0)`, a move
to `(200,30)` appends the turn point `(0,30)` and flips the axis. -/
theorem turn_registration_witness :
    ([(⟨0, 0⟩ : Point)] : List Point).getLast? = some ⟨0, 0⟩ ∧
    (movePipe ⟨[⟨0, 0⟩], Dir.V, []⟩ ⟨200, 30⟩).lastDirection = Dir.H ∧
    (movePipe ⟨[⟨0, 0⟩], Dir.V, []⟩ ⟨200, 30⟩).centerline = [⟨0, 0⟩, ⟨0, 30⟩] := by
  have ha : ([(⟨0, 0⟩ : Point)] : List Point).getLast? = some ⟨0, 0⟩ := by simp
  have h150 : (150:ℝ) < |(⟨200, 30⟩ : Point).x - (⟨0, 0⟩ : Point).x| := by
    show (150:ℝ) < |(200:ℝ) - 0|
    rw [sub_zero, abs_of_pos (by norm_num : (0:ℝ) < 200)]
    norm_num
  have h := ((turn_registration ⟨[⟨0, 0⟩], Dir.V, []⟩ ⟨200, 30⟩ ⟨0, 0⟩ ha).1 rfl).1 h150
  obtain ⟨hd, hc, -⟩ := h
  refine ⟨ha, hd, ?_⟩
  rw [hc, if_pos (by norm_num : ((⟨200, 30⟩ : Point)).y ≠ ((⟨0, 0⟩ : Point)).y)]
  rfl

/-! ## Claim C7: axis locking -/

/-- C7: an undetermined direction resolves to Horizontal when
`|dx| > |dy|` and to Vertical otherwise (visible in the session state
whenever the move does not immediately cross the turn threshold), and
while locked the live endpoint's perpendicular coordinate is pinned to the
anchor's whenever the perpendicular displacement does not exceed the
150-unit threshold. -/
theorem axis_lock (s : SessionState) (mouse anchor : Point)
    (ha : s.centerline.getLast? = some anchor) :
    (s.lastDirection = Dir.none →
      (|mouse.y - anchor.y| < |mouse.x - anchor.x| → |mouse.y - anchor.y| ≤ 150 →
        (movePipe s mouse).lastDirection = Dir.H) ∧
      (¬ |mouse.y - anchor.y| < |mouse.x - anchor.x| → |mouse.x - anchor.x| ≤ 150 →
        (movePipe s mouse).lastDirection = Dir.V)) ∧
    (s.lastDirection = Dir.V → |mouse.x - anchor.x| ≤ 150 →
      (moveStep anchor mouse Dir.V).1.x = anchor.x) ∧
    (s.lastDirection = Dir.H → |mouse.y - anchor.y| ≤ 150 →
      (moveStep anchor mouse Dir.H).1.y = anchor.y) := by
  refine ⟨?_, ?_, ?_⟩
  · intro hdir
    rw [movePipe_lastDirection s anchor mouse ha, hdir, resolveDir_undetermined]
    constructor
    · intro hxy hth
      rw [if_pos hxy]
      simp only [moveStep]
      rw [if_neg (not_lt.mpr hth)]
    · intro hxy hth
      rw [if_neg hxy]
      simp only [moveStep]
      rw [if_neg (not_lt.mpr hth)]
  · intro _ hth
    simp only [moveStep]
    rw [if_neg (not_lt.mpr hth)]
  · intro _ hth
    simp only [moveStep]
    rw [if_neg (not_lt.mpr hth)]

/-- Witness for C7: from a fresh session at `(0,0)`, a move to `(5,40)`
locks the axis to Vertical and pins the live endpoint's x at 0. -/
theorem axis_lock_witness :
    ((startSession ⟨0, 0⟩).centerline).getLast? = some ⟨0, 0⟩ ∧
    (movePipe (startSession ⟨0, 0⟩) ⟨5, 40⟩).lastDirection = Dir.V ∧
    (moveStep ⟨0, 0⟩ ⟨5, 40⟩ Dir.V).1.x = (⟨0, 0⟩ : Point).x := by
  have ha : ((startSession (⟨0, 0⟩ : Point)).centerline).getLast? = some ⟨0, 0⟩ := by
    simp [startSession]
  have h := axis_lock (startSession ⟨0, 0⟩) ⟨5, 40⟩ ⟨0, 0⟩ ha
  have hxy : ¬ |(⟨5, 40⟩ : Point).y - (⟨0, 0⟩ : Point).y| <
      |(⟨5, 40⟩ : Point).x - (⟨0, 0⟩ : Point).x| := by
    show ¬ |(40:ℝ) - 0| < |(5:ℝ) - 0|
    rw [sub_zero, sub_zero, abs_of_pos (by norm_num : (0:ℝ) < 40),
      abs_of_pos (by norm_num : (0:ℝ) < 5)]
    norm_num
  have hth : |(⟨5, 40⟩ : Point).x - (⟨0, 0⟩ : Point).x| ≤ 150 := by
    show |(5:ℝ) - 0| ≤ 150
    rw [sub_zero, abs_of_pos (by norm_num : (0:ℝ) < 5)]
    norm_num
  have hth2 : |(⟨5, 40⟩ : Point).x - (⟨0, 0⟩ : Point).x| ≤ 150 := hth
  refine ⟨ha, (h.1 rfl).2 hxy hth, ?_⟩
  simp only [moveStep]
  rw [if_neg (not_lt.mpr hth)]

/-! ## Claim C10: committed centerline vertices are pairwise distinct -/

/-- If `moveStep` pushes a turn point onto the centerline, that point
differs from the anchor (the guard
`turnPoint.x !== anchorPoint.x || turnPoint.y !== anchorPoint.y`). -/
theorem moveStep_push_ne (anchor mouse : Point) (d : Dir) (t : Point)
    (h : (moveStep anchor mouse d).2.1 = some t) : t ≠ anchor := by
  cases d <;> simp only [moveStep] at h <;> split at h <;> simp at h
  all_goals
    rcases h with ⟨hne, rfl⟩
    intro he
    rw [Point.ext_iff2] at he
    first
    | exact hne he.1
    | exact hne he.2

/-- `movePipe` preserves distinctness of consecutive centerline vertices. -/
theorem movePipe_chain (s : SessionState) (mouse : Point)
    (h : List.Chain' (fun a b => a ≠ b) s.centerline) :
    List.Chain' (fun a b => a ≠ b) (movePipe s mouse).centerline := by
  cases hl : s.centerline.getLast? with
  | none =>
    simp only [movePipe, hl]
    exact h
  | some anchor =>
    rw [movePipe_centerline s anchor mouse hl]
    cases hm : (moveStep anchor mouse
        (resolveDir s.lastDirection (mouse.x - anchor.x) (mouse.y - anchor.y))).2.1 with
    | none => simpa using h
    | some t =>
      have ht : t ≠ anchor := moveStep_push_ne anchor mouse _ t hm
      simp only [Option.toList_some]
      rw [List.chain'_append]
      refine ⟨h, by simp, ?_⟩
      intro x hx y hy
      rw [hl] at hx
      simp at hx hy
      rw [← hx, ← hy]
      exact ht.symm

/-- C10: throughout a sketch session started at any point, consecutive
committed centerline vertices are always distinct: a registered turn point
is appended only when it differs from the current last centerline vertex,
so the centerline never contains a zero-length segment. -/
theorem centerline_consecutive_distinct (pos : Point) (moves : List Point) :
    List.Chain' (fun a b => a ≠ b) (runMoves (startSession pos) moves).centerline := by
  have base : List.Chain' (fun a b => a ≠ b) (startSession pos).centerline := by
    simp [startSession]
  suffices h : ∀ s : SessionState, List.Chain' (fun a b => a ≠ b) s.centerline →
      List.Chain' (fun a b => a ≠ b) (runMoves s moves).centerline from h _ base
  induction moves with
  | nil => intro s hs; exact hs
  | cons m ms ih =>
    intro s hs
    exact ih _ (movePipe_chain s m hs)

/-- Whenever the preview polygon after a move is not suppressed, it is the
outline of the updated centerline extended by the live endpoint. -/
theorem movePipe_preview_spec (s : SessionState) (mouse anchor : Point)
    (ha : s.centerline.getLast? = some anchor) :
    (movePipe s mouse).preview = [] ∨
    (movePipe s mouse).preview =
      generateOrthogonalPipeVertices ((movePipe s mouse).centerline ++
        [(moveStep anchor mouse
          (resolveDir s.lastDirection (mouse.x - anchor.x) (mouse.y - anchor.y))).1]) 150 := by
  rw [movePipe_centerline s anchor mouse ha]
  rw [movePipe_eval s anchor mouse ha]
  dsimp only
  split
  · exact Or.inl rfl
  · exact Or.inr rfl

/-! ## Claim C2: committing a sketch on pointer-up -/

/-- C2 amended: on pointer-up while drawing, the final vertices come from
the stored preview polygon: when it has more than 3 vertices a new shape
with exactly those vertices, zero-filled `cornerRadii` and `segmentDepths`
of the same length is appended and selected; otherwise no shape is
created.  The stored preview equals
`buildOutline(centerline + live endpoint, 150)` whenever the last move was
not suppressed (live segment of length at least 5); a suppressed move
leaves an empty preview, so a pointer-up right after it creates no shape
even though the recomputed outline would have had more than 3 vertices. -/
theorem commit_shape_rule (s : SessionState) (st : DrawingState) (newId : String) :
    (3 < s.preview.length →
      mouseUp s st newId =
        { shapes := st.shapes ++
            [{ id := newId, vertices := s.preview,
               cornerRadii := List.replicate s.preview.length 0,
               segmentDepths := List.replicate s.preview.length 0 }],
          selectedShapeId := some newId }) ∧
    (¬ 3 < s.preview.length → mouseUp s st newId = st) ∧
    (∀ (s' : SessionState) (mouse anchor : Point),
      s'.centerline.getLast? = some anchor →
      (movePipe s' mouse).preview ≠ [] →
      (movePipe s' mouse).preview =
        generateOrthogonalPipeVertices ((movePipe s' mouse).centerline ++
          [(moveStep anchor mouse
            (resolveDir s'.lastDirection (mouse.x - anchor.x) (mouse.y - anchor.y))).1]) 150) := by
  refine ⟨?_, ?_, ?_⟩
  · intro h
    simp only [mouseUp]
    rw [if_pos h]
    rfl
  · intro h
    simp only [mouseUp]
    rw [if_neg h]
  · intro s' mouse anchor ha hne
    rcases movePipe_preview_spec s' mouse anchor ha with h | h
    · exact absurd h hne
    · exact h

/-- C2 counterexample: pointer-down at `(0,0)` followed by a move to
`(3,0)` (live segment of length 3, preview suppressed) and pointer-up.
The outline of the centerline plus the live endpoint has 4 > 3 vertices,
so the claim's recompute-once-more rule would create a shape — but the
code creates none, because it reads the suppressed (empty) preview. -/
theorem commit_shape_cex :
    3 < (generateOrthogonalPipeVertices
          ((movePipe (startSession ⟨0, 0⟩) ⟨3, 0⟩).centerline ++
            [(moveStep ⟨0, 0⟩ ⟨3, 0⟩
               (resolveDir (startSession (⟨0, 0⟩ : Point)).lastDirection
                 ((⟨3, 0⟩ : Point).x - (⟨0, 0⟩ : Point).x)
                 ((⟨3, 0⟩ : Point).y - (⟨0, 0⟩ : Point).y))).1]) 150).length ∧
    (mouseUp (movePipe (startSession ⟨0, 0⟩) ⟨3, 0⟩) ⟨[], Option.none⟩ "a").shapes = [] := by
  have ha : ((startSession (⟨0, 0⟩ : Point)).centerline).getLast? = some ⟨0, 0⟩ := by
    simp [startSession]
  have e3 : hypot (3:ℝ) 0 = 3 := hypot_eq (by norm_num) (by norm_num)
  have hdir : resolveDir (startSession (⟨0, 0⟩ : Point)).lastDirection
      ((⟨3, 0⟩ : Point).x - (⟨0, 0⟩ : Point).x)
      ((⟨3, 0⟩ : Point).y - (⟨0, 0⟩ : Point).y) = Dir.H := by
    show resolveDir Dir.none ((3:ℝ) - 0) ((0:ℝ) - 0) = Dir.H
    rw [resolveDir_undetermined, if_pos (by norm_num)]
  have hms : moveStep ⟨0, 0⟩ ⟨3, 0⟩ Dir.H = ((⟨3, 0⟩ : Point), Option.none, Dir.H) := by
    simp only [moveStep]
    rw [if_neg (by norm_num : ¬ (150:ℝ) < |(⟨3, 0⟩ : Point).y - (⟨0, 0⟩ : Point).y|)]
  have hcl : (movePipe (startSession ⟨0, 0⟩) ⟨3, 0⟩).centerline = [⟨0, 0⟩] := by
    rw [movePipe_centerline (startSession ⟨0, 0⟩) ⟨0, 0⟩ ⟨3, 0⟩ ha, hdir, hms]
    simp [startSession]
  have hprev : (movePipe (startSession ⟨0, 0⟩) ⟨3, 0⟩).preview = [] := by
    rw [movePipe_eval (startSession ⟨0, 0⟩) ⟨0, 0⟩ ⟨3, 0⟩ ha]
    dsimp only
    rw [hdir, hms]
    dsimp only
    rw [if_pos]
    · simp only [startSession, Option.toList_none, List.append_nil,
        List.getLast?_singleton, Option.getD_some]
      show hypot ((3:ℝ) - 0) ((0:ℝ) - 0) < 5
      rw [show ((3:ℝ) - 0) = 3 by norm_num, show ((0:ℝ) - 0) = 0 by norm_num, e3]
      norm_num
  constructor
  · rw [hcl]
    simp only [generateOrthogonalPipeVertices]
    rw [if_neg (by simp : ¬ ([(⟨0, 0⟩ : Point)] ++
      [(moveStep ⟨0, 0⟩ ⟨3, 0⟩
        (resolveDir (startSession (⟨0, 0⟩ : Point)).lastDirection
          ((⟨3, 0⟩ : Point).x - (⟨0, 0⟩ : Point).x)
          ((⟨3, 0⟩ : Point).y - (⟨0, 0⟩ : Point).y))).1] : List Point).length < 2)]
    simp
  · simp only [mouseUp]
    rw [if_neg (by rw [hprev]; simp)]

/-- Witness for the amended C2: committing a session whose preview has 4
vertices creates exactly that shape and selects it. -/
theorem commit_shape_rule_witness :
    3 < ([(⟨0, 0⟩ : Point), ⟨1, 0⟩, ⟨1, 1⟩, ⟨0, 1⟩] : List Point).length ∧
    mouseUp ⟨[], Dir.none, [⟨0, 0⟩, ⟨1, 0⟩, ⟨1, 1⟩, ⟨0, 1⟩]⟩ ⟨[], Option.none⟩ "a" =
      { shapes := [{ id := "a", vertices := [⟨0, 0⟩, ⟨1, 0⟩, ⟨1, 1⟩, ⟨0, 1⟩],
                     cornerRadii := List.replicate 4 0,
                     segmentDepths := List.replicate 4 0 }],
        selectedShapeId := some "a" } := by
  have h4 : 3 < ([(⟨0, 0⟩ : Point), ⟨1, 0⟩, ⟨1, 1⟩, ⟨0, 1⟩] : List Point).length := by simp
  have h := (commit_shape_rule ⟨[], Dir.none, [⟨0, 0⟩, ⟨1, 0⟩, ⟨1, 1⟩, ⟨0, 1⟩]⟩
    ⟨[], Option.none⟩ "a").1 h4
  refine ⟨h4, ?_⟩
  simpa using h

/-! ## Claim C9: the length invariant of the state container -/

/-- A shape found by `getSelectedShape` belongs to the shape list. -/
theorem getSelectedShape_mem (st : DrawingState) (sel : Shape)
    (h : getSelectedShape st = some sel) : sel ∈ st.shapes :=
  List.mem_of_find?_eq_some h

/-- `jsSet` preserves the length exactly when the index is in range. -/
theorem jsSet_length_of_lt (l : List ℝ) (i : ℕ) (v : ℝ) (h : i < l.length) :
    (jsSet l i v).length = l.length := by
  rw [jsSet, if_pos h, List.length_set]

theorem jsSetPt_length_of_lt (l : List Point) (i : ℕ) (v : Point) (h : i < l.length) :
    (jsSetPt l i v).length = l.length := by
  rw [jsSetPt, if_pos h, List.length_set]

/-- Membership in `mapSelected`: every resulting shape is either an
untouched original or the update applied to an original with the selected
id. -/
theorem mapSelected_cases (st : DrawingState) (sel : Shape) (f : Shape → Shape)
    (sh' : Shape) (h : sh' ∈ mapSelected st sel f) :
    ∃ sh ∈ st.shapes, (sh.id = sel.id ∧ sh' = f sh) ∨ (sh.id ≠ sel.id ∧ sh' = sh) := by
  rw [mapSelected, List.mem_map] at h
  obtain ⟨sh, hsh, he⟩ := h
  refine ⟨sh, hsh, ?_⟩
  by_cases hid : sh.id = sel.id
  · rw [if_pos hid] at he
    exact Or.inl ⟨hid, he.symm⟩
  · rw [if_neg hid] at he
    exact Or.inr ⟨hid, he.symm⟩

/-- Updating the selected shape preserves the invariant provided the
update preserves balanced lengths on the selected shape itself and ids are
unique. -/
theorem inv_mapSelected (st : DrawingState) (sel : Shape) (f : Shape → Shape)
    (hInv : Inv st)
    (hid : ∀ a ∈ st.shapes, ∀ b ∈ st.shapes, a.id = b.id → a = b)
    (hsel : getSelectedShape st = some sel)
    (hf : ShapeInv sel → ShapeInv (f sel)) :
    ∀ sh' ∈ mapSelected st sel f, ShapeInv sh' := by
  intro sh' h
  obtain ⟨sh, hsh, hcase⟩ := mapSelected_cases st sel f sh' h
  rcases hcase with ⟨hidq, rfl⟩ | ⟨_, rfl⟩
  · have hmem := getSelectedShape_mem st sel hsel
    have he : sh = sel := hid sh hsh sel hmem hidq
    rw [he]
    exact hf (hInv sel hmem)
  · exact hInv _ hsh

/-- C9 amended: every state-container operation preserves the invariant
`cornerRadii.length == segmentDepths.length == vertices.length` for every
resulting shape (ids assumed unique, as the container guarantees), with
`addNewShape` zero-filling both arrays to the vertex count — provided the
index passed to `updateVertexPosition`, `setCornerRadius` and
`setSegmentDepth` is in range of the selected shape's respective array
(an out-of-range JS assignment would extend that single array). -/
theorem container_ops_preserve_inv (st : DrawingState)
    (hid : ∀ a ∈ st.shapes, ∀ b ∈ st.shapes, a.id = b.id → a = b)
    (hInv : Inv st) :
    (∀ sid, Inv (selectShape st sid)) ∧
    (∀ i p, (∀ sel, getSelectedShape st = some sel → i < sel.vertices.length) →
      Inv (updateVertexPosition st i p)) ∧
    (∀ i r, (∀ sel, getSelectedShape st = some sel → i < sel.cornerRadii.length) →
      Inv (setCornerRadius st i r)) ∧
    (∀ i d, (∀ sel, getSelectedShape st = some sel → i < sel.segmentDepths.length) →
      Inv (setSegmentDepth st i d)) ∧
    (∀ i dx dy, Inv (moveSegment st i dx dy)) ∧
    (∀ ratio hor pts, Inv (scaleAll st ratio hor pts)) ∧
    (∀ sid dx dy, Inv (moveShape st sid dx dy)) ∧
    (∀ nid verts, Inv (addNewShape st nid verts)) ∧
    (∀ sid, Inv (deleteShape st sid)) := by
  refine ⟨?_, ?_, ?_, ?_, ?_, ?_, ?_, ?_, ?_⟩
  · intro sid
    exact hInv
  · intro i p hrange
    cases hsel : getSelectedShape st with
    | none => simp only [updateVertexPosition, hsel]; exact hInv
    | some sel =>
      simp only [updateVertexPosition, hsel]
      refine inv_mapSelected st sel _ hInv hid hsel ?_
      intro hs
      exact ⟨by rw [hs.1, jsSetPt_length_of_lt _ _ _ (hrange sel hsel)],
             by rw [hs.2, jsSetPt_length_of_lt _ _ _ (hrange sel hsel)]⟩
  · intro i r hrange
    cases hsel : getSelectedShape st with
    | none => simp only [setCornerRadius, hsel]; exact hInv
    | some sel =>
      simp only [setCornerRadius, hsel]
      refine inv_mapSelected st sel _ hInv hid hsel ?_
      intro hs
      exact ⟨by rw [jsSet_length_of_lt _ _ _ (hrange sel hsel)]; exact hs.1, hs.2⟩
  · intro i d hrange
    cases hsel : getSelectedShape st with
    | none => simp only [setSegmentDepth, hsel]; exact hInv
    | some sel =>
      simp only [setSegmentDepth, hsel]
      refine inv_mapSelected st sel _ hInv hid hsel ?_
      intro hs
      exact ⟨hs.1, by rw [jsSet_length_of_lt _ _ _ (hrange sel hsel)]; exact hs.2⟩
  · intro i dx dy
    cases hsel : getSelectedShape st with
    | none => simp only [moveSegment, hsel]; exact hInv
    | some sel =>
      simp only [moveSegment, hsel]
      by_cases hi : i < sel.vertices.length
      · rw [if_pos hi]
        refine inv_mapSelected st sel _ hInv hid hsel ?_
        intro hs
        exact ⟨by rw [hs.1]; simp, by rw [hs.2]; simp⟩
      · rw [if_neg hi]
        exact hInv
  · intro ratio hor pts
    cases hsel : getSelectedShape st with
    | none => simp only [scaleAll, hsel]; exact hInv
    | some sel =>
      simp only [scaleAll, hsel]
      refine inv_mapSelected st sel _ hInv hid hsel ?_
      intro hs
      by_cases hh : hor = true
      · rw [if_pos hh]
        exact ⟨by rw [hs.1]; simp, by rw [hs.2]; simp⟩
      · rw [if_neg hh]
        exact ⟨by rw [hs.1]; simp, by rw [hs.2]; simp⟩
  · intro sid dx dy
    intro sh' h
    simp only [moveShape, List.mem_map] at h
    obtain ⟨sh, hsh, he⟩ := h
    by_cases hidq : sh.id = sid
    · rw [if_pos hidq] at he
      rw [← he]
      have hs := hInv sh hsh
      exact ⟨by rw [hs.1]; simp, by rw [hs.2]; simp⟩
    · rw [if_neg hidq] at he
      rw [← he]
      exact hInv sh hsh
  · intro nid verts
    intro sh' h
    simp only [addNewShape, List.mem_append, List.mem_singleton] at h
    rcases h with h | h
    · exact hInv sh' h
    · rw [h]
      exact ⟨by simp, by simp⟩
  · intro sid
    intro sh' h
    simp only [deleteShape] at h
    exact hInv sh' (List.mem_of_mem_filter h)

/-- Witness for the amended C9 at a concrete one-shape state. -/
theorem container_ops_preserve_inv_witness :
    Inv ⟨[⟨"a", [⟨0, 0⟩, ⟨1, 0⟩, ⟨1, 1⟩, ⟨0, 1⟩],
          List.replicate 4 0, List.replicate 4 0⟩], some "a"⟩ ∧
    (∀ sid, Inv (selectShape ⟨[⟨"a", [⟨0, 0⟩, ⟨1, 0⟩, ⟨1, 1⟩, ⟨0, 1⟩],
          List.replicate 4 0, List.replicate 4 0⟩], some "a"⟩ sid)) := by
  have hInv : Inv ⟨[⟨"a", [⟨0, 0⟩, ⟨1, 0⟩, ⟨1, 1⟩, ⟨0, 1⟩],
      List.replicate 4 0, List.replicate 4 0⟩], some "a"⟩ := by
    intro sh hsh
    simp only [List.mem_singleton] at hsh
    rw [hsh]
    exact ⟨by simp, by simp⟩
  have hid : ∀ a ∈ ([⟨"a", [⟨0, 0⟩, ⟨1, 0⟩, ⟨1, 1⟩, ⟨0, 1⟩],
        List.replicate 4 0, List.replicate 4 0⟩] : List Shape),
      ∀ b ∈ ([⟨"a", [⟨0, 0⟩, ⟨1, 0⟩, ⟨1, 1⟩, ⟨0, 1⟩],
        List.replicate 4 0, List.replicate 4 0⟩] : List Shape), a.id = b.id → a = b := by
    intro a ha b hb _
    simp only [List.mem_singleton] at ha hb
    rw [ha, hb]
  exact ⟨hInv, (container_ops_preserve_inv _ hid hInv).1⟩

/-- C9 counterexample: on a selected shape with 4 vertices and balanced
arrays, `setCornerRadius` at the out-of-range index 10 extends
`cornerRadii` to length 11 (JS assignment past the end), breaking the
invariant — so not every call of the listed operations preserves it. -/
theorem container_ops_cex :
    Inv ⟨[⟨"a", [⟨0, 0⟩, ⟨1, 0⟩, ⟨1, 1⟩, ⟨0, 1⟩],
          List.replicate 4 0, List.replicate 4 0⟩], some "a"⟩ ∧
    ¬ Inv (setCornerRadius ⟨[⟨"a", [⟨0, 0⟩, ⟨1, 0⟩, ⟨1, 1⟩, ⟨0, 1⟩],
          List.replicate 4 0, List.replicate 4 0⟩], some "a"⟩ 10 5) := by
  constructor
  · intro sh hsh
    simp only [List.mem_singleton] at hsh
    rw [hsh]
    exact ⟨by simp, by simp⟩
  · intro hI
    have hfind : getSelectedShape ⟨[⟨"a", [⟨0, 0⟩, ⟨1, 0⟩, ⟨1, 1⟩, ⟨0, 1⟩],
        List.replicate 4 0, List.replicate 4 0⟩], some "a"⟩ =
        some ⟨"a", [⟨0, 0⟩, ⟨1, 0⟩, ⟨1, 1⟩, ⟨0, 1⟩],
          List.replicate 4 0, List.replicate 4 0⟩ := by
      rw [getSelectedShape]
      exact List.find?_cons_of_pos _ (by simp)
    have hmem : (⟨"a", [⟨0, 0⟩, ⟨1, 0⟩, ⟨1, 1⟩, ⟨0, 1⟩],
        jsSet (List.replicate 4 0) 10 5, List.replicate 4 0⟩ : Shape) ∈
        (setCornerRadius ⟨[⟨"a", [⟨0, 0⟩, ⟨1, 0⟩, ⟨1, 1⟩, ⟨0, 1⟩],
          List.replicate 4 0, List.replicate 4 0⟩], some "a"⟩ 10 5).shapes := by
      simp only [setCornerRadius, hfind, mapSelected]
      simp
    have h := (hI _ hmem).1
    rw [jsSet, if_neg (by simp)] at h
    simp at h

end Drawing
